import Mathlib

/-!
Verification development for the feature-switch tools of the azure-devops-mcp fork.

The definitions below are a shallow embedding of the code in src/unnamed/part_002
(the repository tools module): the JSON document codec used by the feature-switch
tools (the JavaScript builtins JSON.stringify(value, null, 2) and JSON.parse,
modelled here over a JSON value type whose numbers are integers), the stage rule
construction and document mutation of update_feature_switch, and the
branch-then-commit sequence of create_feature_switch.  Remote Git calls are
modelled by oracles: records of the results each remote call would return.  Each
workflow returns its outcome together with the ordered trace of remote calls it
submitted.
-/

/-- JSON value, the superset representation the update workflow decodes documents
into (JavaScript object key order is preserved as list order; numbers are
modelled as integers, which covers every field the feature-switch schema and its
known extensions use). -/
inductive Json where
  | null
  | bool (b : Bool)
  | num (n : Int)
  | str (s : String)
  | arr (elems : List Json)
  | obj (entries : List (String × Json))
deriving Repr

mutual

def Json.beq : Json → Json → Bool
  | .null, .null => true
  | .bool a, .bool b => a == b
  | .num a, .num b => a == b
  | .str a, .str b => a == b
  | .arr a, .arr b => Json.beqList a b
  | .obj a, .obj b => Json.beqFields a b
  | _, _ => false

def Json.beqList : List Json → List Json → Bool
  | [], [] => true
  | x :: xs, y :: ys => Json.beq x y && Json.beqList xs ys
  | _, _ => false

def Json.beqFields : List (String × Json) → List (String × Json) → Bool
  | [], [] => true
  | (k1, v1) :: xs, (k2, v2) :: ys => k1 == k2 && Json.beq v1 v2 && Json.beqFields xs ys
  | _, _ => false

end

mutual

theorem Json.beq_iff_eq : ∀ a b : Json, Json.beq a b = true ↔ a = b
  | .null, .null => by simp [Json.beq]
  | .bool _, .bool _ => by simp [Json.beq]
  | .num _, .num _ => by simp [Json.beq]
  | .str _, .str _ => by simp [Json.beq]
  | .arr x, .arr y => by simp [Json.beq, Json.beqList_iff_eq x y]
  | .obj x, .obj y => by simp [Json.beq, Json.beqFields_iff_eq x y]
  | .null, .bool _ | .null, .num _ | .null, .str _ | .null, .arr _ | .null, .obj _
  | .bool _, .null | .bool _, .num _ | .bool _, .str _ | .bool _, .arr _ | .bool _, .obj _
  | .num _, .null | .num _, .bool _ | .num _, .str _ | .num _, .arr _ | .num _, .obj _
  | .str _, .null | .str _, .bool _ | .str _, .num _ | .str _, .arr _ | .str _, .obj _
  | .arr _, .null | .arr _, .bool _ | .arr _, .num _ | .arr _, .str _ | .arr _, .obj _
  | .obj _, .null | .obj _, .bool _ | .obj _, .num _ | .obj _, .str _ | .obj _, .arr _ => by
      simp [Json.beq]

theorem Json.beqList_iff_eq : ∀ xs ys : List Json, Json.beqList xs ys = true ↔ xs = ys
  | [], [] => by simp [Json.beqList]
  | x :: xs, y :: ys => by simp [Json.beqList, Json.beq_iff_eq x y, Json.beqList_iff_eq xs ys]
  | [], _ :: _ => by simp [Json.beqList]
  | _ :: _, [] => by simp [Json.beqList]

theorem Json.beqFields_iff_eq :
    ∀ xs ys : List (String × Json), Json.beqFields xs ys = true ↔ xs = ys
  | [], [] => by simp [Json.beqFields]
  | (k1, v1) :: xs, (k2, v2) :: ys => by
      simp [Json.beqFields, Json.beq_iff_eq v1 v2, Json.beqFields_iff_eq xs ys]
  | [], _ :: _ => by simp [Json.beqFields]
  | _ :: _, [] => by simp [Json.beqFields]

end

instance : DecidableEq Json := fun a b =>
  decidable_of_iff (Json.beq a b = true) (Json.beq_iff_eq a b)

/-- Opening curly brace character (written via its code point so that the brace
never appears inside a literal). -/
def lbrace : Char := Char.ofNat 123

/-- Closing curly brace character. -/
def rbrace : Char := Char.ofNat 125

/-- Decimal digit character for a value below ten. -/
def digitChar (d : Nat) : Char := Char.ofNat (48 + d)

/-- Lowercase hexadecimal digit character, as V8 prints in \u escapes. -/
def hexDigitChar (d : Nat) : Char := if d < 10 then digitChar d else Char.ofNat (87 + d)

/-- Escape of one character inside a JSON string literal, following
JSON.stringify: quote and backslash are backslash-escaped, the named control
characters use their short escapes, the remaining control characters use a
four-digit \u escape, and everything else passes through. -/
def escapeChar (c : Char) : List Char :=
  if c = '"' then ['\\', '"']
  else if c = '\\' then ['\\', '\\']
  else if c = '\n' then ['\\', 'n']
  else if c = '\r' then ['\\', 'r']
  else if c = '\t' then ['\\', 't']
  else if c.toNat = 8 then ['\\', 'b']
  else if c.toNat = 12 then ['\\', 'f']
  else if c.toNat < 32 then
    ['\\', 'u', '0', '0', hexDigitChar (c.toNat / 16), hexDigitChar (c.toNat % 16)]
  else [c]

def escapeList : List Char → List Char
  | [] => []
  | c :: cs => escapeChar c ++ escapeList cs

/-- Characters of a JSON string literal: quote, escaped body, quote. -/
def encStringChars (s : String) : List Char := '"' :: (escapeList s.data ++ ['"'])

def natToCharsAux : Nat → Nat → List Char
  | 0, _ => []
  | f + 1, n => if n = 0 then [] else natToCharsAux f (n / 10) ++ [digitChar (n % 10)]

/-- Decimal digits of a natural number, most significant first. -/
def natToChars (n : Nat) : List Char := if n = 0 then ['0'] else natToCharsAux (n + 1) n

/-- Decimal rendering of an integer, as JSON.stringify prints integral numbers. -/
def intToChars (n : Int) : List Char :=
  if n < 0 then '-' :: natToChars n.natAbs else natToChars n.natAbs

/-- Two spaces of indentation per nesting level: the third argument of the
source's JSON.stringify(value, null, 2) calls. -/
def indentChars (i : Nat) : List Char := List.replicate (2 * i) ' '

mutual

/-- Characters of JSON.stringify(v, null, 2) at nesting level i: scalars print
on the current line, nonempty arrays and objects open a line per element with
two more spaces of indent, and empty ones print as a bracket pair. -/
def encChars : Json → Nat → List Char
  | .null, _ => ['n', 'u', 'l', 'l']
  | .bool true, _ => ['t', 'r', 'u', 'e']
  | .bool false, _ => ['f', 'a', 'l', 's', 'e']
  | .num n, _ => intToChars n
  | .str s, _ => encStringChars s
  | .arr [], _ => ['[', ']']
  | .arr (x :: xs), i =>
      '[' :: '\n' :: (encItems (x :: xs) (i + 1) ++ '\n' :: (indentChars i ++ [']']))
  | .obj [], _ => [lbrace, rbrace]
  | .obj (e :: es), i =>
      lbrace :: '\n' :: (encMembers (e :: es) (i + 1) ++ '\n' :: (indentChars i ++ [rbrace]))

def encItems : List Json → Nat → List Char
  | [], _ => []
  | [x], i => indentChars i ++ encChars x i
  | x :: y :: xs, i => indentChars i ++ (encChars x i ++ ',' :: '\n' :: encItems (y :: xs) i)

def encMembers : List (String × Json) → Nat → List Char
  | [], _ => []
  | [(k, v)], i => indentChars i ++ (encStringChars k ++ ':' :: ' ' :: encChars v i)
  | (k, v) :: e :: es, i =>
      indentChars i ++
        (encStringChars k ++ ':' :: ' ' :: (encChars v i ++ ',' :: '\n' :: encMembers (e :: es) i))

end

/-- Model of JSON.stringify(v, null, 2), the serialization both feature-switch
workflows use to write document bytes. -/
def Json.encode (v : Json) : String := String.mk (encChars v 0)

def isWsChar (c : Char) : Bool := c = ' ' || c = '\n' || c = '\t' || c = '\r'

def skipWs : List Char → List Char
  | [] => []
  | c :: cs => if isWsChar c then skipWs cs else c :: cs

def hexVal (c : Char) : Option Nat :=
  if c.isDigit then some (c.toNat - 48)
  else if 'a' ≤ c ∧ c ≤ 'f' then some (c.toNat - 87)
  else if 'A' ≤ c ∧ c ≤ 'F' then some (c.toNat - 55)
  else none

def unescapeChar (c : Char) : Option Char :=
  if c = '"' then some '"'
  else if c = '\\' then some '\\'
  else if c = '/' then some '/'
  else if c = 'n' then some '\n'
  else if c = 'r' then some '\r'
  else if c = 't' then some '\t'
  else if c = 'b' then some (Char.ofNat 8)
  else if c = 'f' then some (Char.ofNat 12)
  else none

/-- Body of a JSON string literal after the opening quote: collects characters
until the closing quote, resolving backslash escapes, and returns the collected
characters together with the input after the closing quote. -/
def parseStringBody : List Char → Option (List Char × List Char)
  | [] => none
  | c :: cs =>
    if c = '"' then some ([], cs)
    else if c = '\\' then
      match cs with
      | [] => none
      | e :: cs1 =>
        if e = 'u' then
          match cs1 with
          | h1 :: h2 :: h3 :: h4 :: cs2 =>
            match hexVal h1, hexVal h2, hexVal h3, hexVal h4 with
            | some a, some b, some c3, some d =>
              match parseStringBody cs2 with
              | some (l, rest) => some (Char.ofNat (((a * 16 + b) * 16 + c3) * 16 + d) :: l, rest)
              | none => none
            | _, _, _, _ => none
          | _ => none
        else
          match unescapeChar e with
          | none => none
          | some c1 =>
            match parseStringBody cs1 with
            | some (l, rest) => some (c1 :: l, rest)
            | none => none
    else
      match parseStringBody cs with
      | some (l, rest) => some (c :: l, rest)
      | none => none

def spanDigits : List Char → List Char × List Char
  | [] => ([], [])
  | c :: cs =>
    if c.isDigit then
      let p := spanDigits cs
      (c :: p.1, p.2)
    else ([], c :: cs)

def digitsToNat (l : List Char) : Nat := l.foldl (fun a c => 10 * a + (c.toNat - 48)) 0

mutual

/-- Recursive-descent JSON value reader (a model of JSON.parse restricted to
integral numbers).  The first argument is fuel; every recursive call spends one
unit, and the entry point supplies more fuel than any input can consume. -/
def parseV : Nat → List Char → Option (Json × List Char)
  | 0, _ => none
  | f + 1, input =>
    match skipWs input with
    | [] => none
    | c :: cs =>
      if c = 'n' then
        match cs with
        | 'u' :: 'l' :: 'l' :: rest => some (.null, rest)
        | _ => none
      else if c = 't' then
        match cs with
        | 'r' :: 'u' :: 'e' :: rest => some (.bool true, rest)
        | _ => none
      else if c = 'f' then
        match cs with
        | 'a' :: 'l' :: 's' :: 'e' :: rest => some (.bool false, rest)
        | _ => none
      else if c = '"' then
        match parseStringBody cs with
        | some (l, rest) => some (.str (String.mk l), rest)
        | none => none
      else if c = '-' then
        match spanDigits cs with
        | ([], _) => none
        | (d :: ds, rest) => some (.num (-(Int.ofNat (digitsToNat (d :: ds)))), rest)
      else if c.isDigit then
        match spanDigits (c :: cs) with
        | (ds, rest) => some (.num (Int.ofNat (digitsToNat ds)), rest)
      else if c = '[' then
        match skipWs cs with
        | [] => none
        | c2 :: r2 =>
          if c2 = ']' then some (.arr [], r2)
          else
            match parseElems f cs with
            | some (vs, rest) => some (.arr vs, rest)
            | none => none
      else if c = lbrace then
        match skipWs cs with
        | c2 :: r2 =>
          if c2 = rbrace then some (.obj [], r2)
          else
            match parseMembers f cs with
            | some (es, rest) => some (.obj es, rest)
            | none => none
        | [] => none
      else none

def parseElems : Nat → List Char → Option (List Json × List Char)
  | 0, _ => none
  | f + 1, input =>
    match parseV f input with
    | none => none
    | some (v, r1) =>
      match skipWs r1 with
      | [] => none
      | c :: r2 =>
        if c = ',' then
          match parseElems f r2 with
          | none => none
          | some (vs, r3) => some (v :: vs, r3)
        else if c = ']' then some ([v], r2)
        else none

def parseMembers : Nat → List Char → Option (List (String × Json) × List Char)
  | 0, _ => none
  | f + 1, input =>
    match skipWs input with
    | [] => none
    | c :: cs =>
      if c = '"' then
        match parseStringBody cs with
        | none => none
        | some (kcs, r1) =>
          match skipWs r1 with
          | [] => none
          | c2 :: r2 =>
            if c2 = ':' then
              match parseV f r2 with
              | none => none
              | some (v, r3) =>
                match skipWs r3 with
                | [] => none
                | c3 :: r4 =>
                  if c3 = ',' then
                    match parseMembers f r4 with
                    | none => none
                    | some (es, r5) => some ((String.mk kcs, v) :: es, r5)
                  else if c3 = rbrace then some ([(String.mk kcs, v)], r4)
                  else none
            else none
      else none

end

/-- Model of JSON.parse, as the update workflow applies it to the fetched file
content: parse one value, allow trailing whitespace only, and fail (as the
runtime throws a SyntaxError) on anything else. -/
def Json.parse (s : String) : Option Json :=
  match parseV (s.data.length + 1) s.data with
  | some (v, rest) => if skipWs rest = [] then some v else none
  | none => none

theorem skipWs_cons_of_not (c : Char) (l : List Char) (h : isWsChar c = false) :
    skipWs (c :: l) = c :: l := by
  simp [skipWs, h]

theorem skipWs_append_ws (ws : List Char) (h : ∀ c ∈ ws, isWsChar c = true) :
    ∀ l : List Char, skipWs (ws ++ l) = skipWs l := by
  induction ws with
  | nil => intro l; simp
  | cons c cs ih =>
    intro l
    simp only [List.cons_append, skipWs]
    rw [if_pos (h c (by simp))]
    exact ih (fun c hc => h c (by simp [hc])) l

theorem indentChars_ws (i : Nat) : ∀ c ∈ indentChars i, isWsChar c = true := by
  intro c hc
  rw [List.eq_of_mem_replicate hc]
  decide

/-- Shape of the text allowed to follow a printed value: nothing, a comma, or a
newline.  These are the only continuations the printer produces, and none of
them can extend a number literal. -/
def TrailsOk (rest : List Char) : Prop :=
  rest = [] ∨ (∃ t, rest = ',' :: t) ∨ (∃ t, rest = '\n' :: t)

theorem isDigit_toNat_bounds (c : Char) (h : c.isDigit = true) :
    48 ≤ c.toNat ∧ c.toNat ≤ 57 := by
  simp only [Char.isDigit, Bool.and_eq_true, decide_eq_true_eq] at h
  obtain ⟨h1, h2⟩ := h
  constructor
  · exact h1
  · exact h2

theorem char_ne_of_toNat_ne {c d : Char} (h : c.toNat ≠ d.toNat) : c ≠ d := by
  intro he
  exact h (he ▸ rfl)

theorem digit_head_props (c : Char) (h : c.isDigit = true) :
    isWsChar c = false ∧ c ≠ 'n' ∧ c ≠ 't' ∧ c ≠ 'f' ∧ c ≠ '"' ∧ c ≠ '-' ∧ c ≠ '[' ∧
      c ≠ lbrace ∧ c ≠ ']' ∧ c ≠ rbrace := by
  obtain ⟨h1, h2⟩ := isDigit_toNat_bounds c h
  have e1 : ('n').toNat = 110 := rfl
  have e2 : ('t').toNat = 116 := rfl
  have e3 : ('f').toNat = 102 := rfl
  have e4 : ('"').toNat = 34 := rfl
  have e5 : ('-').toNat = 45 := rfl
  have e6 : ('[').toNat = 91 := rfl
  have e7 : lbrace.toNat = 123 := rfl
  have e8 : (']').toNat = 93 := rfl
  have e13 : rbrace.toNat = 125 := rfl
  have e9 : (' ').toNat = 32 := rfl
  have e10 : ('\n').toNat = 10 := rfl
  have e11 : ('\t').toNat = 9 := rfl
  have e12 : ('\r').toNat = 13 := rfl
  refine ⟨?_, ?_, ?_, ?_, ?_, ?_, ?_, ?_, ?_, ?_⟩
  · simp only [isWsChar, Bool.or_eq_false_iff, decide_eq_false_iff_not]
    refine ⟨⟨⟨?_, ?_⟩, ?_⟩, ?_⟩ <;> (intro he; rw [he] at h1; omega)
  all_goals (apply char_ne_of_toNat_ne; omega)

theorem digitChar_isDigit (d : Nat) (h : d < 10) : (digitChar d).isDigit = true := by
  interval_cases d <;> decide

theorem digitChar_toNat (d : Nat) (h : d < 10) : (digitChar d).toNat = 48 + d := by
  interval_cases d <;> decide

theorem natToCharsAux_digits :
    ∀ (f n : Nat), ∀ c ∈ natToCharsAux f n, c.isDigit = true := by
  intro f
  induction f with
  | zero => intro n c hc; simp [natToCharsAux] at hc
  | succ f ih =>
    intro n c hc
    simp only [natToCharsAux] at hc
    by_cases hn : n = 0
    · simp [hn] at hc
    · rw [if_neg hn] at hc
      rcases List.mem_append.1 hc with h | h
      · exact ih _ _ h
      · simp only [List.mem_singleton] at h
        subst h
        exact digitChar_isDigit _ (Nat.mod_lt _ (by norm_num))

theorem natToChars_digits (n : Nat) : ∀ c ∈ natToChars n, c.isDigit = true := by
  intro c hc
  by_cases hn : n = 0
  · simp [natToChars, hn] at hc
    subst hc; decide
  · rw [natToChars, if_neg hn] at hc
    exact natToCharsAux_digits _ _ _ hc

theorem natToChars_ne_nil (n : Nat) : natToChars n ≠ [] := by
  by_cases hn : n = 0
  · simp [natToChars, hn]
  · rw [natToChars, if_neg hn]
    simp only [natToCharsAux]
    rw [if_neg hn]
    simp

theorem digitsToNat_append (l : List Char) (c : Char) :
    digitsToNat (l ++ [c]) = 10 * digitsToNat l + (c.toNat - 48) := by
  simp [digitsToNat, List.foldl_append]

theorem digitsToNat_natToCharsAux :
    ∀ (f n : Nat), n < 10 ^ f → digitsToNat (natToCharsAux f n) = n := by
  intro f
  induction f with
  | zero => intro n h; interval_cases n; simp [natToCharsAux, digitsToNat]
  | succ f ih =>
    intro n h
    simp only [natToCharsAux]
    by_cases hn : n = 0
    · simp [hn, digitsToNat]
    · rw [if_neg hn, digitsToNat_append, ih (n / 10) ?_, digitChar_toNat _ (Nat.mod_lt _ (by norm_num))]
      · omega
      · have h10 : (10 : Nat) ^ (f + 1) = 10 ^ f * 10 := pow_succ 10 f
        rw [Nat.div_lt_iff_lt_mul (by norm_num)]
        omega

theorem digitsToNat_natToChars (n : Nat) : digitsToNat (natToChars n) = n := by
  by_cases hn : n = 0
  · simp [natToChars, hn, digitsToNat]
  · rw [natToChars, if_neg hn]
    refine digitsToNat_natToCharsAux _ _ ?_
    calc n < 10 ^ n := Nat.lt_pow_self (by norm_num) n
    _ ≤ 10 ^ (n + 1) := Nat.pow_le_pow_right (by norm_num) (by omega)

/-- Trailing text that cannot extend a digit run: empty, or starting with a
non-digit. -/
def NotDigitHead (rest : List Char) : Prop :=
  match rest with
  | [] => True
  | c :: _ => c.isDigit = false

theorem trailsOk_notDigitHead (rest : List Char) (h : TrailsOk rest) : NotDigitHead rest := by
  rcases h with h | ⟨t, h⟩ | ⟨t, h⟩
  · subst h; trivial
  · subst h; show (',').isDigit = false; decide
  · subst h; show ('\n').isDigit = false; decide

theorem spanDigits_append (ds rest : List Char) (hd : ∀ c ∈ ds, c.isDigit = true)
    (hr : NotDigitHead rest) : spanDigits (ds ++ rest) = (ds, rest) := by
  induction ds with
  | nil =>
    simp only [List.nil_append]
    match rest with
    | [] => rfl
    | c :: t =>
      simp only [NotDigitHead] at hr
      simp [spanDigits, hr]
  | cons c cs ih =>
    simp only [List.cons_append, spanDigits]
    rw [if_pos (hd c (by simp))]
    have h2 := ih (fun c hc => hd c (by simp [hc]))
    simp only [List.append_eq]
    rw [h2]


theorem hexVal_hexDigitChar (d : Nat) (h : d < 16) : hexVal (hexDigitChar d) = some d := by
  interval_cases d <;> decide

theorem parseStringBody_escapeList (l : List Char) :
    ∀ rest : List Char, parseStringBody (escapeList l ++ '"' :: rest) = some (l, rest) := by
  induction l with
  | nil =>
    intro rest
    simp only [escapeList, List.nil_append]
    rw [parseStringBody.eq_def]
    simp
  | cons c cs ih =>
    intro rest
    simp only [escapeList, List.append_assoc]
    by_cases h1 : c = '"'
    · subst h1
      simp only [escapeChar]
      norm_num
      rw [parseStringBody.eq_def]
      simp [unescapeChar, ih]
    · by_cases h2 : c = '\\'
      · subst h2
        simp only [escapeChar]
        norm_num
        rw [parseStringBody.eq_def]
        simp [unescapeChar, ih]
      · by_cases h3 : c = '\n'
        · subst h3
          simp only [escapeChar]
          norm_num
          rw [parseStringBody.eq_def]
          simp [unescapeChar, ih]
        · by_cases h4 : c = '\r'
          · subst h4
            simp only [escapeChar]
            norm_num
            rw [parseStringBody.eq_def]
            simp [unescapeChar, ih]
          · by_cases h5 : c = '\t'
            · subst h5
              simp only [escapeChar]
              norm_num
              rw [parseStringBody.eq_def]
              simp [unescapeChar, ih]
            · by_cases h6 : c.toNat = 8
              · have hc : Char.ofNat 8 = c := by rw [← h6, Char.ofNat_toNat]
                rw [escapeChar, if_neg h1, if_neg h2, if_neg h3, if_neg h4, if_neg h5, if_pos h6]
                simp only [List.cons_append, List.nil_append]
                rw [parseStringBody.eq_def]
                simp [unescapeChar, ih]
                exact hc
              · by_cases h7 : c.toNat = 12
                · have hc : Char.ofNat 12 = c := by rw [← h7, Char.ofNat_toNat]
                  rw [escapeChar, if_neg h1, if_neg h2, if_neg h3, if_neg h4, if_neg h5,
                    if_neg h6, if_pos h7]
                  simp only [List.cons_append, List.nil_append]
                  rw [parseStringBody.eq_def]
                  simp [unescapeChar, ih]
                  exact hc
                · by_cases h8 : c.toNat < 32
                  · rw [escapeChar, if_neg h1, if_neg h2, if_neg h3, if_neg h4, if_neg h5,
                      if_neg h6, if_neg h7, if_pos h8]
                    simp only [List.cons_append, List.nil_append]
                    rw [parseStringBody.eq_def]
                    have e0 : hexVal '0' = some 0 := by decide
                    have e1 : hexVal (hexDigitChar (c.toNat / 16)) = some (c.toNat / 16) :=
                      hexVal_hexDigitChar _ (by omega)
                    have e2 : hexVal (hexDigitChar (c.toNat % 16)) = some (c.toNat % 16) :=
                      hexVal_hexDigitChar _ (by omega)
                    simp [e0, e1, e2, ih]
                    have harith : c.toNat / 16 * 16 + c.toNat % 16 = c.toNat := by omega
                    rw [harith, Char.ofNat_toNat]
                  · rw [escapeChar, if_neg h1, if_neg h2, if_neg h3, if_neg h4, if_neg h5,
                      if_neg h6, if_neg h7, if_neg h8]
                    simp only [List.cons_append, List.nil_append]
                    rw [parseStringBody.eq_def]
                    simp [h1, h2, ih]

mutual

def fuelOf : Json → Nat
  | .null => 1
  | .bool _ => 1
  | .num _ => 1
  | .str _ => 1
  | .arr xs => 1 + fuelList xs
  | .obj es => 1 + fuelMembers es

def fuelList : List Json → Nat
  | [] => 1
  | x :: xs => 1 + fuelOf x + fuelList xs

def fuelMembers : List (String × Json) → Nat
  | [] => 1
  | (_, v) :: es => 1 + fuelOf v + fuelMembers es

end

theorem fuelOf_pos (v : Json) : 1 ≤ fuelOf v := by
  cases v <;> simp [fuelOf] <;> omega

mutual

theorem fuelOf_le_encLen : ∀ (v : Json) (i : Nat), fuelOf v ≤ (encChars v i).length + 1
  | .null, i => by simp only [fuelOf]; omega
  | .bool b, i => by simp only [fuelOf]; omega
  | .num n, i => by simp only [fuelOf]; omega
  | .str s, i => by simp only [fuelOf]; omega
  | .arr [], i => by
      simp only [fuelOf, fuelList, encChars, List.length_cons, List.length_nil]
      omega
  | .arr (x :: xs), i => by
      have h := fuelList_le_encItems x xs (i + 1) (by omega)
      simp only [fuelOf, encChars, List.length_cons, List.length_append, indentChars,
        List.length_replicate, List.length_singleton]
      omega
  | .obj [], i => by
      simp only [fuelOf, fuelMembers, encChars, List.length_cons, List.length_nil]
      omega
  | .obj ((k, v) :: es), i => by
      have h := fuelMembers_le_encMembers k v es (i + 1)
      simp only [fuelOf, encChars, List.length_cons, List.length_append, indentChars,
        List.length_replicate, List.length_singleton]
      omega
termination_by v i => sizeOf v

theorem fuelList_le_encItems : ∀ (x : Json) (xs : List Json) (i : Nat), 1 ≤ i →
    fuelList (x :: xs) ≤ (encItems (x :: xs) i).length + 1
  | x, [], i, hi => by
      have h := fuelOf_le_encLen x i
      simp only [fuelList, encItems, List.length_append, indentChars, List.length_replicate]
      omega
  | x, y :: ys, i, hi => by
      have h1 := fuelOf_le_encLen x i
      have h2 := fuelList_le_encItems y ys i hi
      simp only [fuelList, encItems, List.length_append, List.length_cons, indentChars,
        List.length_replicate] at *
      omega
termination_by x xs i hi => 1 + sizeOf x + sizeOf xs

theorem fuelMembers_le_encMembers :
    ∀ (k : String) (v : Json) (es : List (String × Json)) (i : Nat),
      fuelMembers ((k, v) :: es) ≤ (encMembers ((k, v) :: es) i).length + 1
  | k, v, [], i => by
      have h := fuelOf_le_encLen v i
      simp only [fuelMembers, encMembers, List.length_append, List.length_cons, indentChars,
        List.length_replicate]
      omega
  | k, v, (k2, v2) :: es, i => by
      have h1 := fuelOf_le_encLen v i
      have h2 := fuelMembers_le_encMembers k2 v2 es i
      simp only [fuelMembers, encMembers, List.length_append, List.length_cons, indentChars,
        List.length_replicate] at *
      omega
termination_by k v es i => 1 + sizeOf v + sizeOf es

end

theorem fuelList_pos (xs : List Json) : 1 ≤ fuelList xs := by
  cases xs <;> simp [fuelList] <;> omega

theorem fuelMembers_pos (es : List (String × Json)) : 1 ≤ fuelMembers es := by
  match es with
  | [] => simp [fuelMembers]
  | (k, v) :: es => simp [fuelMembers]; omega

theorem natToChars_cons (n : Nat) : ∃ d ds, natToChars n = d :: ds ∧ d.isDigit = true := by
  cases h : natToChars n with
  | nil => exact absurd h (natToChars_ne_nil n)
  | cons d ds =>
    refine ⟨d, ds, rfl, ?_⟩
    exact natToChars_digits n d (by rw [h]; simp)

theorem encChars_head (v : Json) (i : Nat) :
    ∃ c t, encChars v i = c :: t ∧ isWsChar c = false ∧ c ≠ ']' ∧ c ≠ rbrace := by
  cases v with
  | null => exact ⟨'n', _, rfl, by decide, by decide, by decide⟩
  | bool b =>
    cases b
    · exact ⟨'f', _, rfl, by decide, by decide, by decide⟩
    · exact ⟨'t', _, rfl, by decide, by decide, by decide⟩
  | num n =>
    by_cases hn : n < 0
    · refine ⟨'-', natToChars n.natAbs, ?_, by decide, by decide, by decide⟩
      simp [encChars, intToChars, hn]
    · obtain ⟨d, ds, hds, hd⟩ := natToChars_cons n.natAbs
      obtain ⟨p1, _, _, _, _, _, _, _, p9, p10⟩ := digit_head_props d hd
      refine ⟨d, ds, ?_, p1, p9, p10⟩
      simp [encChars, intToChars, hn, hds]
  | str s => exact ⟨'"', _, rfl, by decide, by decide, by decide⟩
  | arr xs =>
    cases xs
    · exact ⟨'[', _, rfl, by decide, by decide, by decide⟩
    · exact ⟨'[', _, rfl, by decide, by decide, by decide⟩
  | obj es =>
    cases es
    · exact ⟨lbrace, _, rfl, by decide, by decide, by decide⟩
    · exact ⟨lbrace, _, rfl, by decide, by decide, by decide⟩

/-- Tail of an encoded item list after its first element: empty for the last
element, else a comma, newline and the remaining elements. -/
def encItemsTail : List Json → Nat → List Char
  | [], _ => []
  | y :: ys, i => ',' :: '\n' :: encItems (y :: ys) i

theorem encItems_cons (x : Json) (xs : List Json) (i : Nat) :
    encItems (x :: xs) i = indentChars i ++ (encChars x i ++ encItemsTail xs i) := by
  cases xs <;> simp [encItems, encItemsTail]

def encMembersTail : List (String × Json) → Nat → List Char
  | [], _ => []
  | e :: es, i => ',' :: '\n' :: encMembers (e :: es) i

theorem encMembers_cons (k : String) (v : Json) (es : List (String × Json)) (i : Nat) :
    encMembers ((k, v) :: es) i =
      indentChars i ++ (encStringChars k ++ ':' :: ' ' :: (encChars v i ++ encMembersTail es i)) := by
  cases es <;> simp [encMembers, encMembersTail]

theorem skipWs_two_ws (w1 w2 : List Char) (h1 : ∀ c ∈ w1, isWsChar c = true)
    (h2 : ∀ c ∈ w2, isWsChar c = true) (c : Char) (hc : isWsChar c = false) (l : List Char) :
    skipWs (w1 ++ (w2 ++ (c :: l))) = c :: l := by
  rw [← List.append_assoc]
  rw [skipWs_append_ws (w1 ++ w2) ?_ , skipWs_cons_of_not _ _ hc]
  intro x hx
  rcases List.mem_append.1 hx with h | h
  · exact h1 x h
  · exact h2 x h

set_option maxHeartbeats 1000000

set_option maxRecDepth 16384

theorem parse_enc_all : ∀ f : Nat,
    (∀ (v : Json) (i : Nat) (ws rest : List Char), fuelOf v ≤ f →
      (∀ c ∈ ws, isWsChar c = true) → TrailsOk rest →
      parseV f (ws ++ (encChars v i ++ rest)) = some (v, rest))
  ∧ (∀ (x : Json) (xs : List Json) (i j : Nat) (ws rest : List Char), fuelList (x :: xs) ≤ f →
      (∀ c ∈ ws, isWsChar c = true) →
      parseElems f (ws ++ (encItems (x :: xs) i ++ '\n' :: (indentChars j ++ (']' :: rest)))) =
        some (x :: xs, rest))
  ∧ (∀ (k : String) (v : Json) (es : List (String × Json)) (i j : Nat) (ws rest : List Char),
      fuelMembers ((k, v) :: es) ≤ f →
      (∀ c ∈ ws, isWsChar c = true) →
      parseMembers f
          (ws ++ (encMembers ((k, v) :: es) i ++ '\n' :: (indentChars j ++ (rbrace :: rest)))) =
        some ((k, v) :: es, rest)) := by
  intro f
  induction f using Nat.strong_induction_on with
  | _ f IH =>
  match f with
  | 0 =>
    refine ⟨?_, ?_, ?_⟩
    · intro v i ws rest hf _ _
      exfalso; have := fuelOf_pos v; omega
    · intro x xs i j ws rest hf _
      exfalso; simp only [fuelList] at hf; have := fuelOf_pos x; have := fuelList_pos xs; omega
    · intro k v es i j ws rest hf _
      exfalso; simp only [fuelMembers] at hf
      have := fuelOf_pos v; have := fuelMembers_pos es; omega
  | f + 1 =>
    obtain ⟨IHv, IHe, IHm⟩ := IH f (by omega)
    refine ⟨?_, ?_, ?_⟩
    · -- parseV on an encoded value
      intro v i ws rest hf hws ht
      have hnd := trailsOk_notDigitHead rest ht
      cases v with
      | null =>
        rw [parseV.eq_def]
        simp only [encChars, List.cons_append, skipWs_append_ws ws hws]
        rw [skipWs_cons_of_not _ _ (by decide)]
        simp
      | bool b =>
        cases b <;>
          (rw [parseV.eq_def]
           simp only [encChars, List.cons_append, skipWs_append_ws ws hws]
           rw [skipWs_cons_of_not _ _ (by decide)]
           simp)
      | str s =>
        rw [parseV.eq_def]
        simp only [encChars, encStringChars, List.cons_append, List.append_assoc,
          skipWs_append_ws ws hws]
        rw [skipWs_cons_of_not _ _ (by decide)]
        simp [parseStringBody_escapeList]
      | num n =>
        rw [parseV.eq_def]
        by_cases hn : n < 0
        · obtain ⟨d, ds, hds, hd⟩ := natToChars_cons n.natAbs
          have hdig : ∀ c ∈ natToChars n.natAbs, c.isDigit = true := natToChars_digits _
          have hspan : spanDigits (natToChars n.natAbs ++ rest) = (natToChars n.natAbs, rest) :=
            spanDigits_append _ _ hdig hnd
          simp only [encChars, intToChars, if_pos hn, List.cons_append, List.append_assoc,
            skipWs_append_ws ws hws]
          rw [skipWs_cons_of_not _ _ (by decide)]
          simp only [hds, List.cons_append] at hspan
          simp [hds, hspan]
          rw [← hds, digitsToNat_natToChars]; omega
        · obtain ⟨d, ds, hds, hd⟩ := natToChars_cons n.natAbs
          have hdig : ∀ c ∈ natToChars n.natAbs, c.isDigit = true := natToChars_digits _
          have hspan : spanDigits (natToChars n.natAbs ++ rest) = (natToChars n.natAbs, rest) :=
            spanDigits_append _ _ hdig hnd
          obtain ⟨p1, p2, p3, p4, p5, p6, p7, p8, p9, p10⟩ := digit_head_props d hd
          simp only [encChars, intToChars, if_neg hn, List.cons_append, List.append_assoc,
            skipWs_append_ws ws hws, hds]
          rw [skipWs_cons_of_not _ _ p1]
          simp only [hds, List.cons_append] at hspan
          simp [p2, p3, p4, p5, p6, hd, hspan]
          rw [← hds, digitsToNat_natToChars]; omega
      | arr xs =>
        cases xs with
        | nil =>
          rw [parseV.eq_def]
          simp only [encChars, List.cons_append, skipWs_append_ws ws hws]
          rw [skipWs_cons_of_not _ _ (by decide)]
          simp [skipWs, isWsChar]
        | cons x xs =>
          rw [parseV.eq_def]
          have hfe : fuelList (x :: xs) ≤ f := by simp only [fuelOf] at hf; omega
          simp only [encChars, List.cons_append, List.append_assoc, List.singleton_append,
            skipWs_append_ws ws hws]
          rw [skipWs_cons_of_not _ _ (by decide)]
          obtain ⟨c0, t0, he0, hc0ws, hc0br, hc0rb⟩ := encChars_head x (i + 1)
          have hwsn : ∀ c ∈ ('\n' :: indentChars (i + 1)), isWsChar c = true := by
            intro c hc
            rcases List.mem_cons.1 hc with h | h
            · subst h; decide
            · exact indentChars_ws _ c h
          have hskip2 :
              skipWs ('\n' :: (encItems (x :: xs) (i + 1) ++
                  '\n' :: (indentChars i ++ (']' :: rest)))) =
                c0 :: (t0 ++ (encItemsTail xs (i + 1) ++
                  '\n' :: (indentChars i ++ (']' :: rest)))) := by
            rw [encItems_cons]
            simp only [List.append_assoc, List.cons_append]
            rw [show ('\n' :: (indentChars (i + 1) ++ (encChars x (i + 1) ++
                  (encItemsTail xs (i + 1) ++ '\n' :: (indentChars i ++ (']' :: rest)))))) =
                (('\n' :: indentChars (i + 1)) ++ (encChars x (i + 1) ++
                  (encItemsTail xs (i + 1) ++ '\n' :: (indentChars i ++ (']' :: rest))))) from rfl]
            rw [skipWs_append_ws _ hwsn, he0]
            simp only [List.cons_append, List.append_assoc]
            rw [skipWs_cons_of_not _ _ hc0ws]
          have hel := IHe x xs (i + 1) i ['\n'] rest hfe (by intro c hc; simp at hc; subst hc; decide)
          simp only [List.singleton_append] at hel
          simp [hskip2, hc0br, hel]
      | obj es =>
        cases es with
        | nil =>
          rw [parseV.eq_def]
          simp only [encChars, List.cons_append, skipWs_append_ws ws hws]
          rw [skipWs_cons_of_not _ _ (by decide)]
          simp [skipWs_cons_of_not, (by decide : ¬(lbrace = 'n')), (by decide : ¬(lbrace = 't')),
            (by decide : ¬(lbrace = 'f')), (by decide : ¬(lbrace = '"')),
            (by decide : ¬(lbrace = '-')), (by decide : lbrace.isDigit = false),
            (by decide : ¬(lbrace = '[')), (by decide : isWsChar rbrace = false)]
        | cons e es =>
          obtain ⟨k, v⟩ := e
          rw [parseV.eq_def]
          have hfm : fuelMembers ((k, v) :: es) ≤ f := by simp only [fuelOf] at hf; omega
          simp only [encChars, List.cons_append, List.append_assoc, List.singleton_append,
            skipWs_append_ws ws hws]
          rw [skipWs_cons_of_not _ _ (by decide : isWsChar lbrace = false)]
          have hwsn : ∀ c ∈ ('\n' :: indentChars (i + 1)), isWsChar c = true := by
            intro c hc
            rcases List.mem_cons.1 hc with h | h
            · subst h; decide
            · exact indentChars_ws _ c h
          have hskip2 :
              skipWs ('\n' :: (encMembers ((k, v) :: es) (i + 1) ++
                  '\n' :: (indentChars i ++ (rbrace :: rest)))) =
                '"' :: (escapeList k.data ++ ('"' :: (':' :: ' ' :: (encChars v (i + 1) ++
                  (encMembersTail es (i + 1) ++
                    '\n' :: (indentChars i ++ (rbrace :: rest))))))) := by
            rw [encMembers_cons]
            simp only [encStringChars, List.append_assoc, List.cons_append]
            rw [← List.cons_append]
            rw [skipWs_append_ws _ hwsn, skipWs_cons_of_not _ _ (by decide)]
            simp
          have hmm := IHm k v es (i + 1) i ['\n'] rest hfm
            (by intro c hc; simp at hc; subst hc; decide)
          simp only [List.singleton_append] at hmm
          simp [hskip2, hmm, (by decide : ¬((('"') : Char) = rbrace)),
            (by decide : ¬(lbrace = 'n')), (by decide : ¬(lbrace = 't')),
            (by decide : ¬(lbrace = 'f')), (by decide : ¬(lbrace = '"')),
            (by decide : ¬(lbrace = '-')), (by decide : lbrace.isDigit = false),
            (by decide : ¬(lbrace = '['))]
    · -- parseElems on an encoded item list
      intro x xs i j ws rest hf hws
      have hws' : ∀ c ∈ ws ++ indentChars i, isWsChar c = true := by
        intro c hc
        rcases List.mem_append.1 hc with h | h
        · exact hws c h
        · exact indentChars_ws i c h
      have hwsj : ∀ c ∈ ('\n' :: indentChars j), isWsChar c = true := by
        intro c hc
        rcases List.mem_cons.1 hc with h | h
        · subst h; decide
        · exact indentChars_ws _ c h
      cases xs with
      | nil =>
        rw [parseElems.eq_def]
        have hfx : fuelOf x ≤ f := by simp only [fuelList] at hf; omega
        have hv := IHv x i (ws ++ indentChars i) ('\n' :: (indentChars j ++ (']' :: rest))) hfx
          hws' (Or.inr (Or.inr ⟨_, rfl⟩))
        simp only [encItems, List.append_assoc] at hv ⊢
        rw [hv]
        have hskip : skipWs ('\n' :: (indentChars j ++ (']' :: rest))) = ']' :: rest := by
          rw [← List.cons_append, skipWs_append_ws _ hwsj, skipWs_cons_of_not _ _ (by decide)]
        simp [hskip]
      | cons y ys =>
        rw [parseElems.eq_def]
        have hfx : fuelOf x ≤ f := by
          simp only [fuelList] at hf
          have := fuelList_pos (y :: ys)
          omega
        have hfrest : fuelList (y :: ys) ≤ f := by
          simp only [fuelList] at hf ⊢
          have := fuelOf_pos x
          omega
        have hv := IHv x i (ws ++ indentChars i)
          (',' :: ('\n' :: (encItems (y :: ys) i ++ '\n' :: (indentChars j ++ (']' :: rest)))))
          hfx hws' (Or.inr (Or.inl ⟨_, rfl⟩))
        simp only [encItems, List.append_assoc, List.cons_append] at hv ⊢
        rw [hv]
        have he2 := IHe y ys i j ['\n'] rest hfrest
          (by intro c hc; simp at hc; subst hc; decide)
        simp only [List.singleton_append] at he2
        simp [skipWs_cons_of_not, isWsChar, he2]
    · -- parseMembers on an encoded member list
      intro k v es i j ws rest hf hws
      have hws2 : ∀ c ∈ indentChars i, isWsChar c = true := indentChars_ws i
      have hwsj : ∀ c ∈ ('\n' :: indentChars j), isWsChar c = true := by
        intro c hc
        rcases List.mem_cons.1 hc with h | h
        · subst h; decide
        · exact indentChars_ws _ c h
      have hfv : fuelOf v ≤ f := by
        simp only [fuelMembers] at hf
        have := fuelMembers_pos es
        omega
      rw [parseMembers.eq_def, encMembers_cons]
      simp only [encStringChars, List.append_assoc, List.cons_append]
      rw [skipWs_two_ws ws (indentChars i) hws hws2 '"' (by decide)]
      cases es with
      | nil =>
        have hv := IHv v i [' '] ('\n' :: (indentChars j ++ (rbrace :: rest))) hfv
          (by intro c hc; simp at hc; subst hc; decide) (Or.inr (Or.inr ⟨_, rfl⟩))
        simp only [List.singleton_append] at hv
        have hskip : skipWs ('\n' :: (indentChars j ++ (rbrace :: rest))) = rbrace :: rest := by
          rw [← List.cons_append, skipWs_append_ws _ hwsj,
            skipWs_cons_of_not _ _ (by decide : isWsChar rbrace = false)]
        simp only [encMembersTail, List.nil_append]
        simp [parseStringBody_escapeList, skipWs_cons_of_not, isWsChar, hv, hskip,
          (by decide : ¬(rbrace = ','))]
      | cons e2 es2 =>
        obtain ⟨k2, v2⟩ := e2
        have hfm2 : fuelMembers ((k2, v2) :: es2) ≤ f := by
          simp only [fuelMembers] at hf ⊢
          have := fuelOf_pos v
          omega
        have hv := IHv v i [' ']
          (',' :: ('\n' :: (encMembers ((k2, v2) :: es2) i ++
            '\n' :: (indentChars j ++ (rbrace :: rest))))) hfv
          (by intro c hc; simp at hc; subst hc; decide) (Or.inr (Or.inl ⟨_, rfl⟩))
        simp only [List.singleton_append] at hv
        have hm2 := IHm k2 v2 es2 i j ['\n'] rest hfm2
          (by intro c hc; simp at hc; subst hc; decide)
        simp only [List.singleton_append] at hm2
        simp only [encMembersTail, List.cons_append, List.append_assoc]
        simp [parseStringBody_escapeList, skipWs_cons_of_not, isWsChar, hv, hm2]

/-- Round trip of the modelled codec: JSON.parse recovers exactly the value
JSON.stringify(_, null, 2) printed. -/
theorem Json.parse_encode (v : Json) : Json.parse (Json.encode v) = some v := by
  have hfuel : fuelOf v ≤ (encChars v 0).length + 1 := fuelOf_le_encLen v 0
  have h := (parse_enc_all ((encChars v 0).length + 1)).1 v 0 [] [] hfuel
    (by intro c hc; simp at hc) (Or.inl rfl)
  simp only [List.nil_append, List.append_nil] at h
  simp only [Json.parse, Json.encode]
  rw [h]
  simp [skipWs]

/-- First-match lookup in an object entry list, the JavaScript property read
applied to parsed JSON (parsed objects have unique keys). -/
def lookupEntry : List (String × Json) → String → Option Json
  | [], _ => none
  | (k1, v) :: es, k => if k1 = k then some v else lookupEntry es k

/-- JavaScript property read j.k as the update workflow uses it: a key of an
object, undefined (none) on a missing key or a non-object. -/
def jsGetField (j : Json) (k : String) : Option Json :=
  match j with
  | .obj es => lookupEntry es k
  | _ => none

/-- JavaScript falsiness of a JSON value (null, false, 0 and the empty string
are falsy; objects and arrays are always truthy). -/
def jsFalsy (j : Json) : Bool :=
  match j with
  | .null => true
  | .bool false => true
  | .num 0 => true
  | .str "" => true
  | _ => false

/-- Model of Object.prototype.hasOwnProperty on a decoded Environments value
(false on a non-object, as no feature-switch stage key is an index of a
primitive). -/
def envHasKey (j : Json) (k : String) : Bool :=
  match j with
  | .obj es => es.any (fun e => e.1 == k)
  | _ => false

/-- Model of Object.keys on the decoded Environments value: key list in entry
order. -/
def jsKeys (j : Json) : List String :=
  match j with
  | .obj es => es.map Prod.fst
  | _ => []

/-- JavaScript property assignment on an object entry list: replace the first
entry carrying the key, or append when absent. -/
def setEntry : List (String × Json) → String → Json → List (String × Json)
  | [], k, v => [(k, v)]
  | (k1, v1) :: es, k, v => if k1 = k then (k, v) :: es else (k1, v1) :: setEntry es k v

/-- JavaScript property assignment j.k = v (no effect on non-objects; the
workflow only assigns to values it has checked to be objects). -/
def jsSetKey (j : Json) (k : String) (v : Json) : Json :=
  match j with
  | .obj es => .obj (setEntry es k v)
  | _ => j

/-- JavaScript string defaulting x || d: the default is used when x is absent
or the empty string. -/
def jsOrStr (o : Option String) (d : String) : String :=
  match o with
  | some s => if s = "" then d else s
  | none => d

/-- Truthiness of the optional rolloutName argument: present and nonempty. -/
def jsTruthyStr (o : Option String) : Bool :=
  match o with
  | some s => s != ""
  | none => false

/-- The source's hasRequirements test for tenant ids:
tenantIds && tenantIds.length > 0. -/
def jsTruthyTenantIds (o : Option (List String)) : Bool :=
  match o with
  | some ts => ts.length != 0
  | none => false

/-- Change kind of a pushed file change (VersionControlChangeType.Add / Edit in
the source). -/
inductive ChangeType where
  | add
  | edit
deriving Repr, DecidableEq

/-- One ref update inside a push: ref name, expected old object id, optional
new object id (src/unnamed/part_002, GitRefUpdate uses). -/
structure GitRefUpdate where
  name : String
  oldObjectId : Option String
  newObjectId : Option String
deriving Repr, DecidableEq

/-- One file change of a commit: change kind, item path, new content (the
constant RawText content type is left implicit). -/
structure GitChange where
  changeType : ChangeType
  path : String
  content : String
deriving Repr, DecidableEq

structure GitCommit where
  comment : String
  changes : List GitChange
deriving Repr, DecidableEq

/-- A push request: ref updates plus commits, exactly the object the source
hands to gitApi.createPush. -/
structure GitPush where
  refUpdates : List GitRefUpdate
  commits : List GitCommit
deriving Repr, DecidableEq

structure PushResultCommit where
  commitId : Option String
deriving Repr, DecidableEq

/-- Shape of the createPush response the source reads
(result.commits?.[0]?.commitId). -/
structure PushResult where
  commits : Option (List PushResultCommit)
deriving Repr, DecidableEq

def PushResult.firstCommitId (r : PushResult) : Option String :=
  match r.commits with
  | some (c :: _) => c.commitId
  | _ => none

/-- A ref as returned by getRefs: name and commit id (objectId is optional in
the remote interface). -/
structure GitRef where
  name : String
  objectId : Option String
deriving Repr, DecidableEq

/-- The all-zero Git object id the source uses to signal that a ref does not
yet exist (src/unnamed/part_002 line 15). -/
def NULL_OBJECT_ID : String := String.mk (List.replicate 40 '0')

/-- Arguments of the update_feature_switch tool (src/unnamed/part_002 lines
724-733).  The zod default enabled = true is applied before the handler runs,
so enabled is a plain Bool here. -/
structure UpdateArgs where
  repositoryId : String
  branchName : String
  featureName : String
  stage : String
  tenantIds : Option (List String)
  rolloutName : Option String
  enabled : Bool
  commitMessage : Option String
deriving Repr, DecidableEq

/-- Oracle for the remote calls update_feature_switch performs, in order:
getBranch (ok value = branch.commit?.commitId), getItemContent together with
the stream read (any stream failure or missing stream is an error, sending the
workflow to the fallback), the fallback REST items request (ok value = the
response's optional content field; an error models a thrown fetch error or a
non-ok HTTP status), and createPush.  The connection acquisition that precedes
the try block in the source is outside the model: the oracle stands for the
git API object already in hand. -/
structure UpdateRemote where
  getBranch : Except String (Option String)
  getItemContent : Except String String
  restFetch : Except String (Option String)
  createPush : GitPush → Except String PushResult

/-- One remote call of the update workflow, in submission order. -/
inductive RCall where
  | getBranch
  | getItem
  | restFetch
  | push (p : GitPush)
deriving Repr, DecidableEq

def isPushCall : RCall → Bool
  | .push _ => true
  | _ => false

/-- Fields of the success payload the tool serializes (src/unnamed/part_002
lines 925-936). -/
structure UpdateSuccess where
  message : String
  branchName : String
  filePath : String
  commitId : Option String
  tenantIds : Option (List String)
  stage : String
  updatedConfig : Json
deriving Repr, DecidableEq

/-- Fields of the success:false payload built in the catch-all handler
(src/unnamed/part_002 lines 938-950). -/
structure UpdateError where
  error : String
  repositoryId : String
  branchName : String
  featureName : String
  stage : String
  tenantIds : Option (List String)
deriving Repr, DecidableEq

inductive UpdateOutcome where
  | ok (payload : UpdateSuccess)
  | err (payload : UpdateError)
deriving Repr, DecidableEq

def mkUpdateError (a : UpdateArgs) (msg : String) : UpdateError :=
  { error := msg, repositoryId := a.repositoryId, branchName := a.branchName,
    featureName := a.featureName, stage := a.stage, tenantIds := a.tenantIds }

/-- File path of a feature switch document (src/unnamed/part_002 line 748). -/
def updateFilePath (a : UpdateArgs) : String :=
  "Features/Configuration/Features/" ++ a.featureName ++ ".json"

/-- Model constant for the message of the SyntaxError JSON.parse throws (the
runtime's exact wording varies and nothing downstream reads it). -/
def jsonParseErrorMessage : String := "Unexpected token in JSON"

/-- One requirement object as the source builds it (src/unnamed/part_002 lines
867-884): the Name is always the PowerBI.MemberOf predicate. -/
def mkRequirement (pivot : String) (values : List String) : Json :=
  Json.obj [("Name", Json.str "PowerBI.MemberOf"),
    ("Parameters", Json.obj [("Pivot", Json.str pivot),
      ("Values", Json.arr (values.map Json.str))])]

/-- The requires array of the membership branch (src/unnamed/part_002 lines
862-885): a RolloutName requirement when rolloutName is truthy, then a
TenantObjectId requirement when tenantIds is present and nonempty. -/
def buildRequires (rolloutName : Option String) (tenantIds : Option (List String)) : List Json :=
  (if jsTruthyStr rolloutName then [mkRequirement "RolloutName" [rolloutName.getD ""]] else [])
    ++ (if jsTruthyTenantIds tenantIds then [mkRequirement "TenantObjectId" (tenantIds.getD [])]
        else [])

/-- The value written to Environments[stage] (src/unnamed/part_002 lines
853-891): a simple Enabled object when neither rolloutName nor tenantIds is
truthy, else a Requires object. -/
def newStageValue (rolloutName : Option String) (tenantIds : Option (List String))
    (enabled : Bool) : Json :=
  if jsTruthyStr rolloutName || jsTruthyTenantIds tenantIds then
    Json.obj [("Requires", Json.arr (buildRequires rolloutName tenantIds))]
  else
    Json.obj [("Enabled", Json.bool enabled)]

def defaultUpdateCommitMessage (a : UpdateArgs) : String :=
  "Update feature switch " ++ a.featureName ++ " for " ++ a.stage ++ " stage with tenant IDs"

/-- The push update_feature_switch submits (src/unnamed/part_002 lines
896-921): a single ref update naming the branch with expected old object id =
the resolved tip and no new object id, and a single commit with a single Edit
change carrying the re-encoded document. -/
def mkUpdatePush (a : UpdateArgs) (tip : String) (updatedContent : String) : GitPush :=
  { refUpdates := [⟨"refs/heads/" ++ a.branchName, some tip, none⟩]
    commits := [⟨jsOrStr a.commitMessage (defaultUpdateCommitMessage a),
      [⟨ChangeType.edit, "/" ++ updateFilePath a, updatedContent⟩]⟩] }

def couldNotFindFileMessage (a : UpdateArgs) (primaryError : String) : String :=
  "Could not find file: " ++ updateFilePath a ++ " on branch: " ++ a.branchName ++
    ". Error: " ++ primaryError

def noFileContentMessage (a : UpdateArgs) : String :=
  "Could not find feature switch file content: " ++ updateFilePath a

def envMissingMessage : String :=
  "\x27Environments\x27 section not found in feature switch configuration"

def unknownStageMessage (a : UpdateArgs) (keys : List String) : String :=
  "Stage \x27" ++ a.stage ++ "\x27 not found in Environments section. Available stages: " ++
    String.intercalate ", " keys

def noCommitMessage (a : UpdateArgs) : String :=
  "Could not find latest commit for branch " ++ a.branchName

/-- Steps of update_feature_switch after the file content has been obtained
(src/unnamed/part_002 lines 838-936): JSON.parse, the Environments truthiness
check, the hasOwnProperty stage check, the stage mutation, re-encoding, and the
push.  The success payload's updatedConfig field is
currentConfig.Environments[stage] read back after the assignment, which is the
assigned value. -/
def updAfterContent (a : UpdateArgs) (r : UpdateRemote) (tip : String) (content : String)
    (calls : List RCall) : UpdateOutcome × List RCall :=
  match Json.parse content with
  | none => (.err (mkUpdateError a jsonParseErrorMessage), calls)
  | some cfg =>
    match jsGetField cfg "Environments" with
    | none => (.err (mkUpdateError a envMissingMessage), calls)
    | some env =>
      if jsFalsy env then (.err (mkUpdateError a envMissingMessage), calls)
      else if envHasKey env a.stage = false then
        (.err (mkUpdateError a (unknownStageMessage a (jsKeys env))), calls)
      else
        let newVal := newStageValue a.rolloutName a.tenantIds a.enabled
        let updatedCfg := jsSetKey cfg "Environments" (jsSetKey env a.stage newVal)
        let push := mkUpdatePush a tip (Json.encode updatedCfg)
        match r.createPush push with
        | .error m => (.err (mkUpdateError a m), calls ++ [.push push])
        | .ok pr =>
          (.ok { message := "Successfully updated feature switch " ++ a.featureName ++ " for " ++
                  a.stage ++ " stage",
                 branchName := a.branchName, filePath := updateFilePath a,
                 commitId := pr.firstCommitId, tenantIds := a.tenantIds, stage := a.stage,
                 updatedConfig := newVal }, calls ++ [.push push])

/-- The dual-path fetch of update_feature_switch (src/unnamed/part_002 lines
753-836): the primary getItemContent, on any primary failure one fallback REST
request, then the falsy-content check (undefined or empty content both fail
with the no-content message; a failed fallback fails with the file-not-found
message carrying the primary error). -/
def updAfterTip (a : UpdateArgs) (r : UpdateRemote) (tip : String) :
    UpdateOutcome × List RCall :=
  match r.getItemContent with
  | .ok content =>
    if content = "" then (.err (mkUpdateError a (noFileContentMessage a)), [.getBranch, .getItem])
    else updAfterContent a r tip content [.getBranch, .getItem]
  | .error e1 =>
    match r.restFetch with
    | .error _ =>
      (.err (mkUpdateError a (couldNotFindFileMessage a e1)), [.getBranch, .getItem, .restFetch])
    | .ok none =>
      (.err (mkUpdateError a (noFileContentMessage a)), [.getBranch, .getItem, .restFetch])
    | .ok (some content) =>
      if content = "" then
        (.err (mkUpdateError a (noFileContentMessage a)), [.getBranch, .getItem, .restFetch])
      else updAfterContent a r tip content [.getBranch, .getItem, .restFetch]

/-- The update_feature_switch tool (src/unnamed/part_002 lines 721-952) over a
remote oracle, returning the outcome and the ordered trace of remote calls.
Every thrown error lands in the catch-all and becomes the success:false
payload carrying the identifying parameters. -/
def update_feature_switch (a : UpdateArgs) (r : UpdateRemote) : UpdateOutcome × List RCall :=
  match r.getBranch with
  | .error m => (.err (mkUpdateError a m), [.getBranch])
  | .ok none => (.err (mkUpdateError a (noCommitMessage a)), [.getBranch])
  | .ok (some tip) =>
    if tip = "" then (.err (mkUpdateError a (noCommitMessage a)), [.getBranch])
    else updAfterTip a r tip

/-- The branch-name slug of create_feature_switch (src/unnamed/part_002 line
633): lowercase, then replace every character outside [a-z0-9] by a dash.
Modelled per character with ASCII lowercasing, which agrees with the source
because any character whose lowercase form is outside ASCII [a-z0-9] becomes a
dash either way. -/
def normalizeFeatureName (s : String) : String :=
  String.mk (s.data.map (fun c =>
    let lc := c.toLower
    if ('a' ≤ lc ∧ lc ≤ 'z') ∨ ('0' ≤ lc ∧ lc ≤ '9') then lc else '-'))

/-- The twelve deployment stages of a new feature switch document
(src/unnamed/part_002 lines 657-670), in source order. -/
def featureStages : List String :=
  ["onebox", "test", "cst", "dxt", "msit", "prod", "mc", "gcc", "gcchigh", "dod", "usnat", "ussec"]

/-- The canonical document create_feature_switch commits (src/unnamed/part_002
lines 654-671). -/
def createFeatureDoc (featureName description : String) : Json :=
  Json.obj [("Id", Json.str featureName), ("Description", Json.str description),
    ("Environments", Json.obj (featureStages.map (fun s => (s, Json.obj []))))]

/-- Arguments of the create_feature_switch tool (src/unnamed/part_002 lines
621-627); the zod default sourceBranch = "master" is applied before the
handler runs. -/
structure CreateArgs where
  repositoryId : String
  featureName : String
  description : String
  sourceBranch : String
  branchName : Option String
deriving Repr, DecidableEq

/-- Oracle for the remote calls create_feature_switch performs: getRefs for
the source branch (a missing or empty result models both a null and an empty
refs answer), updateRefs for the new branch, createPush for the file commit. -/
structure CreateRemote where
  getRefs : Except String (List GitRef)
  updateRefs : GitRefUpdate → Except String Unit
  createPush : GitPush → Except String PushResult

/-- One remote write of the create workflow, in submission order. -/
inductive CreateEvent where
  | refUpdate (u : GitRefUpdate)
  | push (p : GitPush)
deriving Repr, DecidableEq

def isCreatePushEvent : CreateEvent → Bool
  | .push _ => true
  | _ => false

/-- What the success text of create_feature_switch communicates: branch, file
path, file content and the push result (src/unnamed/part_002 lines 705-710,
modelled structurally instead of as the formatted text blob). -/
structure CreateSuccess where
  branchName : String
  filePath : String
  fileContent : String
  result : PushResult
deriving Repr, DecidableEq

def finalBranchNameOf (a : CreateArgs) : String :=
  jsOrStr a.branchName ("feature/" ++ normalizeFeatureName a.featureName)

def createFilePath (a : CreateArgs) : String :=
  "Features/Configuration/Features/" ++ a.featureName ++ ".json"

/-- The ref update creating the feature branch (src/unnamed/part_002 lines
644-650): expected old id is the null object id, new id is the source commit. -/
def mkNewBranchRef (a : CreateArgs) (sourceCommit : Option String) : GitRefUpdate :=
  { name := "refs/heads/" ++ finalBranchNameOf a, oldObjectId := some NULL_OBJECT_ID,
    newObjectId := sourceCommit }

/-- The push committing the new configuration file (src/unnamed/part_002 lines
676-703): one Add change on the feature branch with expected old id = the
source commit. -/
def mkCreatePush (a : CreateArgs) (sourceCommit : Option String) : GitPush :=
  { refUpdates := [⟨"refs/heads/" ++ finalBranchNameOf a, sourceCommit, none⟩]
    commits := [⟨"Add feature switch configuration for " ++ a.featureName,
      [⟨ChangeType.add, "/" ++ createFilePath a,
        Json.encode (createFeatureDoc a.featureName a.description)⟩]⟩] }

def createFailureNote : String := "Failed to create feature switch: "

/-- The create_feature_switch tool (src/unnamed/part_002 lines 618-717) over a
remote oracle, returning the outcome and the ordered trace of remote writes.
Any thrown error is re-thrown wrapped in the fixed prefix, losing which step
produced it. -/
def create_feature_switch (a : CreateArgs) (r : CreateRemote) :
    Except String CreateSuccess × List CreateEvent :=
  match r.getRefs with
  | .error m => (.error (createFailureNote ++ m), [])
  | .ok [] =>
    (.error (createFailureNote ++ ("Source branch \x27" ++ a.sourceBranch ++ "\x27 not found")), [])
  | .ok (ref :: _) =>
    let u := mkNewBranchRef a ref.objectId
    match r.updateRefs u with
    | .error m => (.error (createFailureNote ++ m), [.refUpdate u])
    | .ok _ =>
      let p := mkCreatePush a ref.objectId
      match r.createPush p with
      | .error m => (.error (createFailureNote ++ m), [.refUpdate u, .push p])
      | .ok pr =>
        (.ok { branchName := finalBranchNameOf a, filePath := createFilePath a,
               fileContent := Json.encode (createFeatureDoc a.featureName a.description),
               result := pr }, [.refUpdate u, .push p])

theorem update_at_most_one_push (a : UpdateArgs) (r : UpdateRemote) :
    ((update_feature_switch a r).2.filter isPushCall).length ≤ 1 := by
  unfold update_feature_switch updAfterTip updAfterContent
  repeat' split
  all_goals try simp [isPushCall]
  all_goals (split <;> simp [isPushCall])

theorem updAfterContent_push_mem (a : UpdateArgs) (r : UpdateRemote) (tip content : String)
    (calls : List RCall) (p : GitPush)
    (hp : RCall.push p ∈ (updAfterContent a r tip content calls).2)
    (hnp : calls.filter isPushCall = []) :
    ∃ uc, p = mkUpdatePush a tip uc ∧
      (updAfterContent a r tip content calls).2 = calls ++ [RCall.push p] ∧
      (∀ m, r.createPush p = .error m →
        (updAfterContent a r tip content calls).1 = .err (mkUpdateError a m)) := by
  have hmemnot : RCall.push p ∉ calls := by
    intro hmem
    have : RCall.push p ∈ calls.filter isPushCall := List.mem_filter.2 ⟨hmem, rfl⟩
    simp [hnp] at this
  unfold updAfterContent at hp ⊢
  cases hparse : Json.parse content <;> simp only [hparse] at hp ⊢
  · exact absurd hp hmemnot
  · case some cfg =>
    cases hget : jsGetField cfg "Environments" <;> simp only [hget] at hp ⊢
    · exact absurd hp hmemnot
    · case some env =>
      by_cases hf : jsFalsy env = true
      · rw [if_pos hf] at hp ⊢
        exact absurd hp hmemnot
      · rw [if_neg hf] at hp ⊢
        by_cases hk : envHasKey env a.stage = false
        · rw [if_pos hk] at hp ⊢
          exact absurd hp hmemnot
        · rw [if_neg hk] at hp ⊢
          cases hcp : r.createPush (mkUpdatePush a tip (Json.encode
              (jsSetKey cfg "Environments" (jsSetKey env a.stage
                (newStageValue a.rolloutName a.tenantIds a.enabled))))) <;>
            simp only [hcp] at hp ⊢
          · rcases List.mem_append.1 hp with h | h
            · exact absurd h hmemnot
            · simp only [List.mem_singleton, RCall.push.injEq] at h
              subst h
              refine ⟨_, rfl, rfl, ?_⟩
              intro m hm
              rw [hcp] at hm
              cases hm
              rfl
          · rcases List.mem_append.1 hp with h | h
            · exact absurd h hmemnot
            · simp only [List.mem_singleton, RCall.push.injEq] at h
              subst h
              refine ⟨_, rfl, rfl, ?_⟩
              intro m hm
              rw [hcp] at hm
              cases hm

theorem update_push_mem (a : UpdateArgs) (r : UpdateRemote) (p : GitPush)
    (hp : RCall.push p ∈ (update_feature_switch a r).2) :
    ∃ tip uc, r.getBranch = .ok (some tip) ∧ p = mkUpdatePush a tip uc ∧
      (update_feature_switch a r).2.getLast? = some (RCall.push p) ∧
      (update_feature_switch a r).2.filter isPushCall = [RCall.push p] ∧
      (∀ m, r.createPush p = .error m →
        (update_feature_switch a r).1 = .err (mkUpdateError a m)) := by
  unfold update_feature_switch at hp ⊢
  rcases hgb : r.getBranch with m | (_ | tip) <;> simp only [hgb] at hp ⊢
  · simp at hp
  · simp at hp
  · by_cases htip : tip = ""
    · rw [if_pos htip] at hp
      simp at hp
    · rw [if_neg htip] at hp ⊢
      refine ⟨tip, ?_⟩
      unfold updAfterTip at hp ⊢
      rcases hgi : r.getItemContent with e1 | content <;> simp only [hgi] at hp ⊢
      · rcases hrf : r.restFetch with e2 | (_ | content) <;> simp only [hrf] at hp ⊢
        · simp at hp
        · simp at hp
        · by_cases hc : content = ""
          · rw [if_pos hc] at hp
            simp at hp
          · rw [if_neg hc] at hp ⊢
            obtain ⟨uc, hpe, htr, herr⟩ :=
              updAfterContent_push_mem a r tip content [.getBranch, .getItem, .restFetch] p hp
                (by simp [isPushCall])
            refine ⟨uc, trivial, hpe, ?_, ?_, herr⟩ <;> simp [htr, isPushCall]
      · by_cases hc : content = ""
        · rw [if_pos hc] at hp
          simp at hp
        · rw [if_neg hc] at hp ⊢
          obtain ⟨uc, hpe, htr, herr⟩ :=
            updAfterContent_push_mem a r tip content [.getBranch, .getItem] p hp
              (by simp [isPushCall])
          refine ⟨uc, trivial, hpe, ?_, ?_, herr⟩ <;> simp [htr, isPushCall]

theorem update_err_shape (a : UpdateArgs) (r : UpdateRemote) (e : UpdateError)
    (he : (update_feature_switch a r).1 = .err e) : ∃ m, e = mkUpdateError a m := by
  unfold update_feature_switch updAfterTip updAfterContent at he
  repeat' split at he
  all_goals try simp at he
  all_goals try split at he
  all_goals try simp at he
  all_goals first
    | exact ⟨_, he.symm⟩
    | exact ⟨_, he⟩

theorem lookupEntry_setEntry_ne (es : List (String × Json)) (k1 k : String) (v : Json)
    (h : k ≠ k1) : lookupEntry (setEntry es k1 v) k = lookupEntry es k := by
  induction es with
  | nil => simp [setEntry, lookupEntry, Ne.symm h]
  | cons e es ih =>
    obtain ⟨ka, va⟩ := e
    by_cases hk : ka = k1
    · subst hk
      simp [setEntry, lookupEntry, Ne.symm h]
    · simp [setEntry, hk, lookupEntry, ih]

/-- C3: a membership update carrying both a rollout name and a nonempty tenant
list compiles to a Requires array of exactly two requirements, RolloutName
first and TenantObjectId second with the tenant ids in input order; with only
one of the two supplied, that requirement is the sole element. -/
theorem c3_requires_order (rn : String) (ts : List String) (enabled : Bool)
    (hrn : rn ≠ "") (hts : ts ≠ []) :
    buildRequires (some rn) (some ts) =
      [mkRequirement "RolloutName" [rn], mkRequirement "TenantObjectId" ts]
    ∧ newStageValue (some rn) (some ts) enabled =
        Json.obj [("Requires",
          Json.arr [mkRequirement "RolloutName" [rn], mkRequirement "TenantObjectId" ts])]
    ∧ (∀ ts2 : Option (List String), jsTruthyTenantIds ts2 = false →
        newStageValue (some rn) ts2 enabled =
          Json.obj [("Requires", Json.arr [mkRequirement "RolloutName" [rn]])])
    ∧ (∀ rn2 : Option String, jsTruthyStr rn2 = false →
        newStageValue rn2 (some ts) enabled =
          Json.obj [("Requires", Json.arr [mkRequirement "TenantObjectId" ts])])
    ∧ mkRequirement "TenantObjectId" ts =
        Json.obj [("Name", Json.str "PowerBI.MemberOf"),
          ("Parameters", Json.obj [("Pivot", Json.str "TenantObjectId"),
            ("Values", Json.arr (ts.map Json.str))])] := by
  have h1 : jsTruthyStr (some rn) = true := by simp [jsTruthyStr, hrn]
  have h2 : jsTruthyTenantIds (some ts) = true := by
    simp [jsTruthyTenantIds]
    exact fun hlen => hts hlen
  refine ⟨?_, ?_, ?_, ?_, rfl⟩
  · simp [buildRequires, h1, h2]
  · simp [newStageValue, buildRequires, h1, h2]
  · intro ts2 hts2
    simp [newStageValue, buildRequires, h1, hts2]
  · intro rn2 hrn2
    simp [newStageValue, buildRequires, h2, hrn2]

/-- Witness for c3_requires_order at rolloutName "daily" and tenant ids
["t1", "t2"]. -/
theorem c3_requires_order_witness :
    buildRequires (some "daily") (some ["t1", "t2"]) =
      [mkRequirement "RolloutName" ["daily"], mkRequirement "TenantObjectId" ["t1", "t2"]]
    ∧ newStageValue (some "daily") (some ["t1", "t2"]) true =
        Json.obj [("Requires", Json.arr [mkRequirement "RolloutName" ["daily"],
          mkRequirement "TenantObjectId" ["t1", "t2"]])]
    ∧ newStageValue (some "daily") none true =
        Json.obj [("Requires", Json.arr [mkRequirement "RolloutName" ["daily"]])]
    ∧ newStageValue none (some ["t1", "t2"]) true =
        Json.obj [("Requires", Json.arr [mkRequirement "TenantObjectId" ["t1", "t2"]])] := by
  obtain ⟨a1, a2, a3, a4, _⟩ :=
    c3_requires_order "daily" ["t1", "t2"] true (by decide) (by decide)
  exact ⟨a1, a2, a3 none rfl, a4 none rfl⟩

/-- Sample document: a feature switch whose
Environments object has a prod stage. -/
def sampleDoc : Json :=
  Json.obj [("Id", Json.str "F"),
    ("Environments", Json.obj [("prod", Json.obj [("Requires", Json.arr [])])])]

def c7Args : UpdateArgs :=
  { repositoryId := "R", branchName := "feature/x", featureName := "F", stage := "prod",
    tenantIds := some [], rolloutName := none, enabled := true, commitMessage := none }

def c7Remote : UpdateRemote :=
  { getBranch := .ok (some "tip0"), getItemContent := .ok (Json.encode sampleDoc),
    restFetch := .error "unused", createPush := fun _ => .ok ⟨some [⟨some "sha1"⟩]⟩ }

/-- Counterexample to C7: a membership update with empty tenantIds and no
rolloutName does not fail with any EmptyRequirement error; the stage rule
branch treats it as a simple toggle and the workflow succeeds, writing
Enabled: true into the stage. -/
theorem c7_counterexample :
    newStageValue none (some []) true = Json.obj [("Enabled", Json.bool true)]
    ∧ (update_feature_switch c7Args c7Remote).1 =
        .ok { message := "Successfully updated feature switch F for prod stage",
              branchName := "feature/x", filePath := "Features/Configuration/Features/F.json",
              commitId := some "sha1", tenantIds := some [], stage := "prod",
              updatedConfig := Json.obj [("Enabled", Json.bool true)] } := by
  constructor
  · rfl
  · decide

/-- Amended C7: when both tenantIds and rolloutName are empty or absent, the
stage rule compiler performs a simple toggle, writing an object with the sole
key Enabled set to the enabled argument; no EmptyRequirement failure exists. -/
theorem c7_amended (rn : Option String) (ts : Option (List String)) (enabled : Bool)
    (hrn : jsTruthyStr rn = false) (hts : jsTruthyTenantIds ts = false) :
    newStageValue rn ts enabled = Json.obj [("Enabled", Json.bool enabled)] := by
  simp [newStageValue, hrn, hts]

theorem c7_amended_witness :
    jsTruthyStr (some "") = false ∧ jsTruthyTenantIds (some []) = false ∧
    newStageValue (some "") (some []) false = Json.obj [("Enabled", Json.bool false)] :=
  ⟨rfl, rfl, c7_amended (some "") (some []) false rfl rfl⟩

/-- Counterexample to C8: at a membership update carrying both a rollout and
tenant ids, every emitted requirement is named PowerBI.MemberOf; the name
PowerBI.NotMemberOf never appears (the tool has no isMember argument at all,
see UpdateArgs). -/
theorem c8_counterexample :
    (buildRequires (some "daily") (some ["t1", "t2"])).map (fun j => jsGetField j "Name") =
      [some (Json.str "PowerBI.MemberOf"), some (Json.str "PowerBI.MemberOf")]
    ∧ (buildRequires (some "daily") (some ["t1", "t2"])).filter
        (fun j => jsGetField j "Name" == some (Json.str "PowerBI.NotMemberOf")) = [] := by
  constructor <;> rfl

/-- Amended C8: every requirement the stage rule compiler emits has Name
PowerBI.MemberOf, for every input. -/
theorem c8_amended (rn : Option String) (ts : Option (List String)) (j : Json)
    (hj : j ∈ buildRequires rn ts) :
    jsGetField j "Name" = some (Json.str "PowerBI.MemberOf") := by
  unfold buildRequires at hj
  rcases List.mem_append.1 hj with h | h
  · by_cases hr : jsTruthyStr rn = true
    · rw [if_pos hr] at h
      simp only [List.mem_singleton] at h
      subst h
      rfl
    · rw [if_neg hr] at h
      simp at h
  · by_cases ht : jsTruthyTenantIds ts = true
    · rw [if_pos ht] at h
      simp only [List.mem_singleton] at h
      subst h
      rfl
    · rw [if_neg ht] at h
      simp at h

theorem c8_amended_witness :
    mkRequirement "RolloutName" ["daily"] ∈ buildRequires (some "daily") (some ["t1"])
    ∧ jsGetField (mkRequirement "RolloutName" ["daily"]) "Name" =
        some (Json.str "PowerBI.MemberOf") := by
  have hm : mkRequirement "RolloutName" ["daily"] ∈ buildRequires (some "daily") (some ["t1"]) := by
    decide
  exact ⟨hm, c8_amended (some "daily") (some ["t1"]) _ hm⟩

/-- C9: the document codec round-trips every JSON value (decode after encode
is the identity, unknown fields included), and JavaScript property assignment
changes only the assigned key, so the update workflow's single-stage mutation
leaves every other field and stage of the decoded document unchanged. -/
theorem c9_roundtrip_and_preservation :
    (∀ d : Json, Json.parse (Json.encode d) = some d)
    ∧ (∀ (j : Json) (k1 : String) (v : Json) (k : String), k ≠ k1 →
        jsGetField (jsSetKey j k1 v) k = jsGetField j k) := by
  constructor
  · exact Json.parse_encode
  · intro j k1 v k hne
    cases j <;> simp [jsSetKey, jsGetField]
    exact lookupEntry_setEntry_ne _ k1 k v hne

/-- Witness for c9_roundtrip_and_preservation: a document carrying an
unrecognized field and stage round-trips exactly, and mutating the prod stage
leaves the unrecognized parts unchanged. -/
theorem c9_roundtrip_and_preservation_witness :
    Json.parse (Json.encode sampleDoc) = some sampleDoc
    ∧ jsGetField (jsSetKey sampleDoc "Environments" (Json.str "mutated")) "Id" =
        jsGetField sampleDoc "Id" :=
  ⟨c9_roundtrip_and_preservation.1 sampleDoc,
   c9_roundtrip_and_preservation.2 sampleDoc "Environments" (Json.str "mutated") "Id" (by decide)⟩

/-- C1: every push update_feature_switch submits names the branch ref with
expected old commit id equal to the tip resolved in step one; when a
concurrent writer has advanced the tip and the remote therefore rejects the
push, the workflow reports the failure in its success:false payload and the
trace shows exactly one submitted push, with no retry. -/
theorem c1_push_preconditioned_on_resolved_tip (a : UpdateArgs) (r : UpdateRemote)
    (tip tipNow cmsg : String)
    (hb : r.getBranch = .ok (some tip))
    (hreject : ∀ p : GitPush, (∀ u ∈ p.refUpdates, u.oldObjectId ≠ some tipNow) →
      r.createPush p = .error cmsg)
    (hmoved : tip ≠ tipNow) :
    ∀ p : GitPush, RCall.push p ∈ (update_feature_switch a r).2 →
      p.refUpdates = [⟨"refs/heads/" ++ a.branchName, some tip, none⟩]
      ∧ (update_feature_switch a r).1 = .err (mkUpdateError a cmsg)
      ∧ (update_feature_switch a r).2.filter isPushCall = [RCall.push p] := by
  intro p hp
  obtain ⟨tip2, uc, hb2, hpe, _, hfil, herr⟩ := update_push_mem a r p hp
  rw [hb] at hb2
  have htip : tip2 = tip := by
    cases hb2
    rfl
  subst htip
  subst hpe
  refine ⟨rfl, ?_, hfil⟩
  apply herr
  apply hreject
  intro u hu
  simp only [mkUpdatePush, List.mem_singleton] at hu
  subst hu
  simp only [ne_eq, Option.some.injEq]
  exact hmoved

def c1Args : UpdateArgs :=
  { repositoryId := "R", branchName := "b", featureName := "F", stage := "prod",
    tenantIds := some ["t1"], rolloutName := none, enabled := true, commitMessage := none }

/-- Remote for the C1 witness: the branch tip resolves to tipA, but by push
time the tip is tipB, so the remote rejects every push whose precondition
names a different tip. -/
def c1Remote : UpdateRemote :=
  { getBranch := .ok (some "tipA"), getItemContent := .ok (Json.encode sampleDoc),
    restFetch := .error "unused", createPush := fun _ => .error "stale tip" }

def c1Push : GitPush :=
  mkUpdatePush c1Args "tipA" (Json.encode (jsSetKey sampleDoc "Environments"
    (jsSetKey (Json.obj [("prod", Json.obj [("Requires", Json.arr [])])]) "prod"
      (newStageValue none (some ["t1"]) true))))

theorem c1_push_preconditioned_on_resolved_tip_witness :
    RCall.push c1Push ∈ (update_feature_switch c1Args c1Remote).2
    ∧ c1Push.refUpdates = [⟨"refs/heads/" ++ c1Args.branchName, some "tipA", none⟩]
    ∧ (update_feature_switch c1Args c1Remote).1 = .err (mkUpdateError c1Args "stale tip")
    ∧ (update_feature_switch c1Args c1Remote).2.filter isPushCall = [RCall.push c1Push] := by
  have hmem : RCall.push c1Push ∈ (update_feature_switch c1Args c1Remote).2 := by decide
  have h := c1_push_preconditioned_on_resolved_tip c1Args c1Remote "tipA" "tipB" "stale tip"
    rfl (fun p _ => rfl) (by decide) c1Push hmem
  exact ⟨hmem, h.1, h.2.1, h.2.2⟩

/-- C2: create_feature_switch for feature MyFeature, description desc, source
branch master and no explicit branch name creates branch feature/myfeature
(the lowercased dash-normalized slug) and commits the file
Features/Configuration/Features/MyFeature.json whose content decodes to the
document with Id MyFeature, Description desc, and exactly the twelve stage
keys each mapped to an empty object. -/
theorem c2_create_scenario (r : CreateRemote) (c : String) (pr : PushResult)
    (h1 : r.getRefs = .ok [⟨"refs/heads/master", some c⟩])
    (h2 : ∀ u, r.updateRefs u = .ok ())
    (h3 : ∀ p, r.createPush p = .ok pr) :
    (create_feature_switch ⟨"R", "MyFeature", "desc", "master", none⟩ r).2 =
      [CreateEvent.refUpdate ⟨"refs/heads/feature/myfeature", some NULL_OBJECT_ID, some c⟩,
       CreateEvent.push ⟨[⟨"refs/heads/feature/myfeature", some c, none⟩],
         [⟨"Add feature switch configuration for MyFeature",
           [⟨ChangeType.add, "/Features/Configuration/Features/MyFeature.json",
             Json.encode (createFeatureDoc "MyFeature" "desc")⟩]⟩]⟩]
    ∧ Json.parse (Json.encode (createFeatureDoc "MyFeature" "desc")) =
        some (Json.obj [("Id", Json.str "MyFeature"), ("Description", Json.str "desc"),
          ("Environments", Json.obj [("onebox", Json.obj []), ("test", Json.obj []),
            ("cst", Json.obj []), ("dxt", Json.obj []), ("msit", Json.obj []),
            ("prod", Json.obj []), ("mc", Json.obj []), ("gcc", Json.obj []),
            ("gcchigh", Json.obj []), ("dod", Json.obj []), ("usnat", Json.obj []),
            ("ussec", Json.obj [])])])
    ∧ finalBranchNameOf ⟨"R", "MyFeature", "desc", "master", none⟩ =
        "feature/" ++ normalizeFeatureName "MyFeature" := by
  refine ⟨?_, ?_, rfl⟩
  · unfold create_feature_switch
    rw [h1]
    simp only [h2, h3]
    rfl
  · rw [Json.parse_encode]
    rfl

def c2Remote : CreateRemote :=
  { getRefs := .ok [⟨"refs/heads/master", some "abc123"⟩], updateRefs := fun _ => .ok (),
    createPush := fun _ => .ok ⟨some [⟨some "sha9"⟩]⟩ }

theorem c2_create_scenario_witness :
    (create_feature_switch ⟨"R", "MyFeature", "desc", "master", none⟩ c2Remote).2 =
      [CreateEvent.refUpdate ⟨"refs/heads/feature/myfeature", some NULL_OBJECT_ID, some "abc123"⟩,
       CreateEvent.push ⟨[⟨"refs/heads/feature/myfeature", some "abc123", none⟩],
         [⟨"Add feature switch configuration for MyFeature",
           [⟨ChangeType.add, "/Features/Configuration/Features/MyFeature.json",
             Json.encode (createFeatureDoc "MyFeature" "desc")⟩]⟩]⟩]
    ∧ Json.parse (Json.encode (createFeatureDoc "MyFeature" "desc")) =
        some (Json.obj [("Id", Json.str "MyFeature"), ("Description", Json.str "desc"),
          ("Environments", Json.obj [("onebox", Json.obj []), ("test", Json.obj []),
            ("cst", Json.obj []), ("dxt", Json.obj []), ("msit", Json.obj []),
            ("prod", Json.obj []), ("mc", Json.obj []), ("gcc", Json.obj []),
            ("gcchigh", Json.obj []), ("dod", Json.obj []), ("usnat", Json.obj []),
            ("ussec", Json.obj [])])]) := by
  obtain ⟨a1, a2, _⟩ := c2_create_scenario c2Remote "abc123" ⟨some [⟨some "sha9"⟩]⟩
    rfl (fun _ => rfl) (fun _ => rfl)
  exact ⟨a1, a2⟩

theorem update_at_most_one_restFetch (a : UpdateArgs) (r : UpdateRemote) :
    ((update_feature_switch a r).2.filter (fun c => c == RCall.restFetch)).length ≤ 1 := by
  unfold update_feature_switch updAfterTip updAfterContent
  repeat' split
  all_goals try simp
  all_goals (split <;> simp)

/-- C4: when the primary content retrieval fails, the workflow makes exactly
one fallback attempt; if the fallback also fails, it stops with the
file-not-found error (carrying the primary error message) after exactly the
three read calls, submitting no push and no further retries; and no run of the
workflow ever makes more than one fallback attempt. -/
theorem c4_fallback_exactly_once (a : UpdateArgs) (r : UpdateRemote) (tip e1 e2 : String)
    (hb : r.getBranch = .ok (some tip))
    (htip : tip ≠ "")
    (hip : r.getItemContent = .error e1)
    (hrf : r.restFetch = .error e2) :
    (update_feature_switch a r).1 = .err (mkUpdateError a (couldNotFindFileMessage a e1))
    ∧ (update_feature_switch a r).2 = [RCall.getBranch, RCall.getItem, RCall.restFetch]
    ∧ (∀ (a2 : UpdateArgs) (r2 : UpdateRemote),
        ((update_feature_switch a2 r2).2.filter (fun c => c == RCall.restFetch)).length ≤ 1) := by
  refine ⟨?_, ?_, fun a2 r2 => update_at_most_one_restFetch a2 r2⟩ <;>
    (unfold update_feature_switch updAfterTip
     simp only [hb, hip, hrf]
     rw [if_neg htip])

def c4Remote : UpdateRemote :=
  { getBranch := .ok (some "tipA"), getItemContent := .error "stream error",
    restFetch := .error "HTTP 404", createPush := fun _ => .ok ⟨none⟩ }

theorem c4_fallback_exactly_once_witness :
    (update_feature_switch c1Args c4Remote).1 =
      .err (mkUpdateError c1Args ("Could not find file: Features/Configuration/Features/F.json" ++
        " on branch: b. Error: stream error"))
    ∧ (update_feature_switch c1Args c4Remote).2 =
        [RCall.getBranch, RCall.getItem, RCall.restFetch] := by
  obtain ⟨a1, a2, _⟩ :=
    c4_fallback_exactly_once c1Args c4Remote "tipA" "stream error" "HTTP 404" rfl (by decide)
      rfl rfl
  exact ⟨by rw [a1]; rfl, a2⟩

def c5Args : CreateArgs := ⟨"R", "F", "d", "master", none⟩

/-- Remote where branch creation itself fails. -/
def c5RemoteA : CreateRemote :=
  { getRefs := .ok [⟨"refs/heads/master", some "c0"⟩], updateRefs := fun _ => .error "boom",
    createPush := fun _ => .ok ⟨none⟩ }

/-- Remote where branch creation succeeds and the file commit fails. -/
def c5RemoteB : CreateRemote :=
  { getRefs := .ok [⟨"refs/heads/master", some "c0"⟩], updateRefs := fun _ => .ok (),
    createPush := fun _ => .error "boom" }

/-- Counterexample to C5: two runs, one failing at branch creation (step a)
and one failing at the file commit (step c) after the branch was created,
report the identical error value, so the workflow's report does not identify
which step failed. -/
theorem c5_counterexample :
    (create_feature_switch c5Args c5RemoteA).1 = .error "Failed to create feature switch: boom"
    ∧ (create_feature_switch c5Args c5RemoteB).1 = .error "Failed to create feature switch: boom"
    ∧ (create_feature_switch c5Args c5RemoteA).2 =
        [CreateEvent.refUpdate (mkNewBranchRef c5Args (some "c0"))]
    ∧ (create_feature_switch c5Args c5RemoteB).2 =
        [CreateEvent.refUpdate (mkNewBranchRef c5Args (some "c0")),
         CreateEvent.push (mkCreatePush c5Args (some "c0"))] :=
  ⟨rfl, rfl, rfl, rfl⟩

/-- Amended C5: if branch creation fails, the workflow aborts before any file
write (the trace holds only the failed ref update, no push); if the file
commit fails after branch creation succeeded, the workflow surfaces the
underlying error message behind the fixed prefix, but the report does not
identify which step failed. -/
theorem c5_amended (a : CreateArgs) (r : CreateRemote) (ref : GitRef) (refs : List GitRef)
    (m : String) (h1 : r.getRefs = .ok (ref :: refs)) :
    (r.updateRefs (mkNewBranchRef a ref.objectId) = .error m →
      (create_feature_switch a r).1 = .error (createFailureNote ++ m)
        ∧ (create_feature_switch a r).2 = [CreateEvent.refUpdate (mkNewBranchRef a ref.objectId)])
    ∧ (r.updateRefs (mkNewBranchRef a ref.objectId) = .ok () →
        r.createPush (mkCreatePush a ref.objectId) = .error m →
      (create_feature_switch a r).1 = .error (createFailureNote ++ m)
        ∧ (create_feature_switch a r).2 =
            [CreateEvent.refUpdate (mkNewBranchRef a ref.objectId),
             CreateEvent.push (mkCreatePush a ref.objectId)]) := by
  constructor
  · intro h2
    unfold create_feature_switch
    rw [h1]
    simp only [h2]
    exact ⟨trivial, trivial⟩
  · intro h2 h3
    unfold create_feature_switch
    rw [h1]
    simp only [h2, h3]
    exact ⟨trivial, trivial⟩

theorem c5_amended_witness :
    ((create_feature_switch c5Args c5RemoteA).1 = .error "Failed to create feature switch: boom"
      ∧ (create_feature_switch c5Args c5RemoteA).2 =
          [CreateEvent.refUpdate (mkNewBranchRef c5Args (some "c0"))])
    ∧ ((create_feature_switch c5Args c5RemoteB).1 = .error "Failed to create feature switch: boom"
      ∧ (create_feature_switch c5Args c5RemoteB).2 =
          [CreateEvent.refUpdate (mkNewBranchRef c5Args (some "c0")),
           CreateEvent.push (mkCreatePush c5Args (some "c0"))]) :=
  ⟨(c5_amended c5Args c5RemoteA ⟨"refs/heads/master", some "c0"⟩ [] "boom" rfl).1 rfl,
   (c5_amended c5Args c5RemoteB ⟨"refs/heads/master", some "c0"⟩ [] "boom" rfl).2 rfl rfl⟩

/-- C6: when the requested stage is not a key of the decoded document's
Environments object, the workflow fails with the unknown-stage error whose
message lists exactly the keys present (in order, comma separated), and no
push is submitted, so the missing stage is never created. -/
theorem c6_unknown_stage (a : UpdateArgs) (r : UpdateRemote) (tip content : String)
    (cfg env : Json)
    (hb : r.getBranch = .ok (some tip))
    (htip : tip ≠ "")
    (hip : r.getItemContent = .ok content)
    (hc : content ≠ "")
    (hparse : Json.parse content = some cfg)
    (henv : jsGetField cfg "Environments" = some env)
    (htruthy : jsFalsy env = false)
    (hmiss : envHasKey env a.stage = false) :
    (update_feature_switch a r).1 =
      .err (mkUpdateError a ("Stage \x27" ++ a.stage ++
        "\x27 not found in Environments section. Available stages: " ++
        String.intercalate ", " (jsKeys env)))
    ∧ (update_feature_switch a r).2 = [RCall.getBranch, RCall.getItem] := by
  unfold update_feature_switch updAfterTip updAfterContent
  simp only [hb, hip, hparse, henv]
  rw [if_neg htip, if_neg hc, if_neg (by simp [htruthy]), if_pos hmiss]
  exact ⟨rfl, rfl⟩

def c6Doc : Json :=
  Json.obj [("Id", Json.str "F"),
    ("Environments", Json.obj [("onebox", Json.obj []), ("test", Json.obj []),
      ("prod", Json.obj [])])]

def c6Args : UpdateArgs :=
  { repositoryId := "R", branchName := "b", featureName := "F", stage := "canary",
    tenantIds := some ["t1"], rolloutName := none, enabled := true, commitMessage := none }

def c6Remote : UpdateRemote :=
  { getBranch := .ok (some "tip0"), getItemContent := .ok (Json.encode c6Doc),
    restFetch := .error "unused", createPush := fun _ => .ok ⟨none⟩ }

theorem c6_unknown_stage_witness :
    (update_feature_switch c6Args c6Remote).1 =
      .err (mkUpdateError c6Args
        "Stage \x27canary\x27 not found in Environments section. Available stages: onebox, test, prod")
    ∧ (update_feature_switch c6Args c6Remote).2 = [RCall.getBranch, RCall.getItem] := by
  obtain ⟨a1, a2⟩ := c6_unknown_stage c6Args c6Remote "tip0" (Json.encode c6Doc) c6Doc
    (Json.obj [("onebox", Json.obj []), ("test", Json.obj []), ("prod", Json.obj [])])
    rfl (by decide) rfl (by decide) (Json.parse_encode c6Doc) rfl rfl rfl
  refine ⟨?_, a2⟩
  rw [a1]
  rfl

/-- C10: the update workflow submits at most one push and only as its last
remote call; every error outcome is the structured success:false payload
carrying the identifying parameters; and on each pre-push failure path
(unresolvable tip, both retrieval paths failing, JSON parse failure, missing
Environments object, unknown stage) the workflow stops with that payload
before any push is submitted. -/
theorem c10_single_final_push_and_structured_errors (a : UpdateArgs) (r : UpdateRemote) :
    ((update_feature_switch a r).2.filter isPushCall).length ≤ 1
    ∧ (∀ p, RCall.push p ∈ (update_feature_switch a r).2 →
        (update_feature_switch a r).2.getLast? = some (RCall.push p))
    ∧ (∀ e, (update_feature_switch a r).1 = .err e → ∃ m, e = mkUpdateError a m)
    ∧ (∀ m, r.getBranch = .error m →
        update_feature_switch a r = (.err (mkUpdateError a m), [RCall.getBranch]))
    ∧ (r.getBranch = .ok none →
        update_feature_switch a r = (.err (mkUpdateError a (noCommitMessage a)), [RCall.getBranch]))
    ∧ (∀ tip e1 e2, r.getBranch = .ok (some tip) → tip ≠ "" → r.getItemContent = .error e1 →
        r.restFetch = .error e2 →
        update_feature_switch a r =
          (.err (mkUpdateError a (couldNotFindFileMessage a e1)),
           [RCall.getBranch, RCall.getItem, RCall.restFetch]))
    ∧ (∀ tip content, r.getBranch = .ok (some tip) → tip ≠ "" → r.getItemContent = .ok content →
        content ≠ "" → Json.parse content = none →
        update_feature_switch a r =
          (.err (mkUpdateError a jsonParseErrorMessage), [RCall.getBranch, RCall.getItem]))
    ∧ (∀ tip content cfg, r.getBranch = .ok (some tip) → tip ≠ "" →
        r.getItemContent = .ok content →
        content ≠ "" → Json.parse content = some cfg → jsGetField cfg "Environments" = none →
        update_feature_switch a r =
          (.err (mkUpdateError a envMissingMessage), [RCall.getBranch, RCall.getItem]))
    ∧ (∀ tip content cfg env, r.getBranch = .ok (some tip) → tip ≠ "" →
        r.getItemContent = .ok content →
        content ≠ "" → Json.parse content = some cfg →
        jsGetField cfg "Environments" = some env → jsFalsy env = false →
        envHasKey env a.stage = false →
        update_feature_switch a r =
          (.err (mkUpdateError a (unknownStageMessage a (jsKeys env))),
           [RCall.getBranch, RCall.getItem])) := by
  refine ⟨update_at_most_one_push a r, ?_, update_err_shape a r, ?_, ?_, ?_, ?_, ?_, ?_⟩
  · intro p hp
    obtain ⟨_, _, _, _, hlast, _, _⟩ := update_push_mem a r p hp
    exact hlast
  · intro m hm
    unfold update_feature_switch
    rw [hm]
  · intro hm
    unfold update_feature_switch
    rw [hm]
  · intro tip e1 e2 h1 htp h2 h3
    unfold update_feature_switch updAfterTip
    simp only [h1, h2, h3]
    rw [if_neg htp]
  · intro tip content h1 htp h2 hc hp
    unfold update_feature_switch updAfterTip updAfterContent
    simp only [h1, h2, hp]
    rw [if_neg htp, if_neg hc]
  · intro tip content cfg h1 htp h2 hc hp he
    unfold update_feature_switch updAfterTip updAfterContent
    simp only [h1, h2, hp, he]
    rw [if_neg htp, if_neg hc]
  · intro tip content cfg env h1 htp h2 hc hp he hf hk
    unfold update_feature_switch updAfterTip updAfterContent
    simp only [h1, h2, hp, he]
    rw [if_neg htp, if_neg hc, if_neg (by simp [hf]), if_pos hk]

def c10Remote : UpdateRemote :=
  { getBranch := .error "VS403403: branch not found", getItemContent := .error "unused",
    restFetch := .error "unused", createPush := fun _ => .ok ⟨none⟩ }

theorem c10_single_final_push_and_structured_errors_witness :
    ((update_feature_switch c6Args c10Remote).2.filter isPushCall).length ≤ 1
    ∧ update_feature_switch c6Args c10Remote =
        (.err (mkUpdateError c6Args "VS403403: branch not found"), [RCall.getBranch]) := by
  obtain ⟨h1, _, _, h4, _⟩ :=
    c10_single_final_push_and_structured_errors c6Args c10Remote
  exact ⟨h1, h4 "VS403403: branch not found" rfl⟩
